import Mathlib

/-
  Shallow embedding of the sec-processing-rust repository:
  a ZIP / ZIP64 archive decoder (zip-parser/src/lib.rs, zip-parser/src/util.rs)
  and its per-entry driver (src/main.rs).

  Byte buffers are modelled as List Nat (each element a byte value 0..255;
  none of the statements below depends on the upper bound).  Machine
  integers (u16/u32/u64/usize) are modelled as Nat: the only arithmetic the
  code performs on them is checked subtraction (Nat subtraction truncates at
  zero exactly like checked_sub + unwrap_or(0)), widening conversions, and
  u32/u64 -> usize conversions, which always succeed on the 64-bit targets
  the crate builds for.  Fallible Rust functions returning Result<_, Error>
  become Except Error; the From<Eof> conversion is inlined, so the byte
  cursor signals Error.Eof directly.  Rust code paths that panic are
  modelled by a distinguished RustResult.panicked outcome.
-/

namespace SecZip

/-- Error enum from zip-parser/src/lib.rs. -/
inductive Error where
  | Eof
  | BadEocdr
  | BadZip64Eocdl
  | BadCfh
  | BadLfh
  | Unsupported
  | OffsetOverflow
  | TODO
deriving DecidableEq

/-- Outcome of a Rust computation that may also panic (expect / panic! /
out-of-bounds slicing).  Used for the code paths of main.rs and for
Zip64Archive.parse, whose slicing can panic. -/
inductive RustResult (α : Type) where
  | ok (a : α)
  | err (e : Error)
  | panicked

/-- Byte cursor take from zip-parser/src/util.rs: consume the first n bytes,
returning (suffix, prefix); Eof (here Error.Eof via the From impl) when
fewer than n bytes remain. -/
def take (input : List Nat) (n : Nat) : Except Error (List Nat × List Nat) :=
  if input.length ≥ n then .ok (input.drop n, input.take n) else .error .Eof

/-- Little-endian value of a byte list (u16/u32/u64 from_le_bytes). -/
def leBytes : List Nat → Nat
  | [] => 0
  | b :: bs => b + 256 * leBytes bs

/-- read_u16 from zip-parser/src/util.rs. -/
def read_u16 (input : List Nat) : Except Error (List Nat × Nat) :=
  match take input 2 with
  | .ok (rest, bytes) => .ok (rest, leBytes bytes)
  | .error e => .error e

/-- read_u32 from zip-parser/src/util.rs. -/
def read_u32 (input : List Nat) : Except Error (List Nat × Nat) :=
  match take input 4 with
  | .ok (rest, bytes) => .ok (rest, leBytes bytes)
  | .error e => .error e

/-- read_u64 from zip-parser/src/util.rs. -/
def read_u64 (input : List Nat) : Except Error (List Nat × Nat) :=
  match take input 8 with
  | .ok (rest, bytes) => .ok (rest, leBytes bytes)
  | .error e => .error e

/-- Occurrence of needle at index i of hay (all needle.length bytes present
and equal). -/
def matchAt (hay needle : List Nat) (i : Nat) : Prop :=
  (hay.drop i).take needle.length = needle

instance (hay needle : List Nat) (i : Nat) : Decidable (matchAt hay needle i) := by
  unfold matchAt; exact inferInstance

/-- Helper for rfind: scan indices m, m-1, ..., 0 and return the first
(hence largest) index where needle occurs. -/
def rfindFrom (hay needle : List Nat) : Nat → Option Nat
  | 0 => if matchAt hay needle 0 then some 0 else none
  | i + 1 => if matchAt hay needle (i + 1) then some (i + 1) else rfindFrom hay needle i

/-- Model of memchr memmem rfind: index of the last occurrence of needle in
hay, if any.  Indices above hay.length cannot match a non-empty needle, so
starting the backward scan at hay.length is exhaustive. -/
def rfind (hay needle : List Nat) : Option Nat :=
  rfindFrom hay needle hay.length

/-- EocdRecord from zip-parser/src/lib.rs. -/
structure EocdRecord where
  disk_nbr : Nat
  cd_start_disk : Nat
  disk_cd_entries : Nat
  cd_entries : Nat
  cd_size : Nat
  cd_offset : Nat
  comment : List Nat

def EocdRecord.SIGNATURE : List Nat := [80, 75, 5, 6]

def EocdRecord.MAX_BACK_OFFSET : Nat := 1024 * 128

/-- Model of Option ok_or: convert an Option into a Result with the given
error for None. -/
def okOr {α : Type} (o : Option α) (e : Error) : Except Error α :=
  match o with
  | some a => .ok a
  | none => .error e

/-- EocdRecord find_sig_offset: search the final MAX_BACK_OFFSET bytes for
the last occurrence of the EOCD signature.  checked_sub + unwrap_or(0) is
Nat subtraction; rfind(...).ok_or(BadEocdr)? then Ok(search_offset +
offset) is okOr followed by map. -/
def EocdRecord.find_sig_offset (buf : List Nat) : Except Error Nat :=
  let search_offset := buf.length - EocdRecord.MAX_BACK_OFFSET
  (okOr (rfind (buf.drop search_offset) EocdRecord.SIGNATURE) .BadEocdr).map
    (fun offset => search_offset + offset)

/-- EocdRecord parse. -/
def EocdRecord.parse (buf : List Nat) : Except Error (List Nat × EocdRecord) := do
  let (buf, sig0) ← take buf EocdRecord.SIGNATURE.length
  if sig0 ≠ EocdRecord.SIGNATURE then throw .BadEocdr
  let (buf, disk_nbr) ← read_u16 buf
  let (buf, cd_start_disk) ← read_u16 buf
  let (buf, disk_cd_entries) ← read_u16 buf
  let (buf, cd_entries) ← read_u16 buf
  let (buf, cd_size) ← read_u32 buf
  let (buf, cd_offset) ← read_u32 buf
  let (buf, comment_len) ← read_u16 buf
  let (buf, comment) ← take buf comment_len
  pure (buf, { disk_nbr := disk_nbr, cd_start_disk := cd_start_disk,
               disk_cd_entries := disk_cd_entries, cd_entries := cd_entries,
               cd_size := cd_size, cd_offset := cd_offset, comment := comment })

/-- EocdRecord find: locate the signature, then parse the record there. -/
def EocdRecord.find (buf : List Nat) : Except Error (Nat × EocdRecord) :=
  match EocdRecord.find_sig_offset buf with
  | .error e => .error e
  | .ok offset =>
    match EocdRecord.parse (buf.drop offset) with
    | .error e => .error e
    | .ok (_, record) => .ok (offset, record)

/-- Zip64EocdRecord from zip-parser/src/lib.rs. -/
structure Zip64EocdRecord where
  version_by : Nat
  version_needed : Nat
  disk_nbr : Nat
  cd_start_disk : Nat
  disk_cd_entries : Nat
  cd_entries : Nat
  cd_size : Nat
  cd_offset : Nat
  extra_data : List Nat

def Zip64EocdRecord.SIGNATURE : List Nat := [80, 75, 6, 6]

/-- Zip64EocdRecord parse.  The declared record size must be at least 44
(the fixed-field size); the u64 to usize conversion always succeeds in the
model. -/
def Zip64EocdRecord.parse (buf : List Nat) : Except Error (List Nat × Zip64EocdRecord) := do
  let (buf, sig0) ← take buf Zip64EocdRecord.SIGNATURE.length
  if sig0 ≠ Zip64EocdRecord.SIGNATURE then throw .BadEocdr
  let (buf, size) ← read_u64 buf
  if size < 44 then throw .BadEocdr
  let extra_data_size := size - 44
  let (buf, version_by) ← read_u16 buf
  let (buf, version_needed) ← read_u16 buf
  let (buf, disk_nbr) ← read_u32 buf
  let (buf, cd_start_disk) ← read_u32 buf
  let (buf, disk_cd_entries) ← read_u64 buf
  let (buf, cd_entries) ← read_u64 buf
  let (buf, cd_size) ← read_u64 buf
  let (buf, cd_offset) ← read_u64 buf
  let (buf, extra_data) ← take buf extra_data_size
  pure (buf, { version_by := version_by, version_needed := version_needed,
               disk_nbr := disk_nbr, cd_start_disk := cd_start_disk,
               disk_cd_entries := disk_cd_entries, cd_entries := cd_entries,
               cd_size := cd_size, cd_offset := cd_offset, extra_data := extra_data })

/-- Zip64EocdLocator from zip-parser/src/lib.rs. -/
structure Zip64EocdLocator where
  cd_start_disk : Nat
  offset : Nat
  num_disks : Nat

def Zip64EocdLocator.SIGNATURE : List Nat := [80, 75, 6, 7]

def Zip64EocdLocator.LENGTH : Nat := 20

/-- Zip64EocdLocator parse. -/
def Zip64EocdLocator.parse (buf : List Nat) : Except Error (List Nat × Zip64EocdLocator) := do
  let (buf, sig0) ← take buf Zip64EocdLocator.SIGNATURE.length
  if sig0 ≠ Zip64EocdLocator.SIGNATURE then throw .BadZip64Eocdl
  let (buf, cd_start_disk) ← read_u32 buf
  let (buf, offset) ← read_u64 buf
  let (buf, num_disks) ← read_u32 buf
  pure (buf, { cd_start_disk := cd_start_disk, offset := offset, num_disks := num_disks })

/-- Zip64EocdLocator find: the fixed 20-byte record immediately preceding
the EOCD record.  checked_sub failure (eocdr_offset below 20) is
BadZip64Eocdl; the slice buf[offset..eocdr_offset] is drop then take. -/
def Zip64EocdLocator.find (buf : List Nat) (eocdr_offset : Nat) : Except Error Zip64EocdLocator :=
  if eocdr_offset < Zip64EocdLocator.LENGTH then .error .BadZip64Eocdl
  else
    match Zip64EocdLocator.parse
        ((buf.drop (eocdr_offset - Zip64EocdLocator.LENGTH)).take Zip64EocdLocator.LENGTH) with
    | .error e => .error e
    | .ok (_, record) => .ok record

/-- CentralFileHeader from zip-parser/src/lib.rs. -/
structure CentralFileHeader where
  made_by_ver : Nat
  extract_ver : Nat
  gp_flag : Nat
  method : Nat
  mod_time : Nat
  mod_date : Nat
  crc32 : Nat
  comp_size : Nat
  uncomp_size : Nat
  disk_nbr_start : Nat
  int_attrs : Nat
  ext_attrs : Nat
  lfh_offset : Nat
  name : List Nat
  extra : List Nat
  comment : List Nat

def CentralFileHeader.SIGNATURE : List Nat := [80, 75, 1, 2]

/-- CentralFileHeader parse. -/
def CentralFileHeader.parse (buf : List Nat) : Except Error (List Nat × CentralFileHeader) := do
  let (buf, expect_sig) ← take buf CentralFileHeader.SIGNATURE.length
  if expect_sig ≠ CentralFileHeader.SIGNATURE then throw .BadCfh
  let (buf, made_by_ver) ← read_u16 buf
  let (buf, extract_ver) ← read_u16 buf
  let (buf, gp_flag) ← read_u16 buf
  let (buf, method) ← read_u16 buf
  let (buf, mod_time) ← read_u16 buf
  let (buf, mod_date) ← read_u16 buf
  let (buf, crc32) ← read_u32 buf
  let (buf, comp_size) ← read_u32 buf
  let (buf, uncomp_size) ← read_u32 buf
  let (buf, name_len) ← read_u16 buf
  let (buf, extra_len) ← read_u16 buf
  let (buf, comment_len) ← read_u16 buf
  let (buf, disk_nbr_start) ← read_u16 buf
  let (buf, int_attrs) ← read_u16 buf
  let (buf, ext_attrs) ← read_u32 buf
  let (buf, lfh_offset) ← read_u32 buf
  let (buf, name) ← take buf name_len
  let (buf, extra) ← take buf extra_len
  let (buf, comment) ← take buf comment_len
  pure (buf, { made_by_ver := made_by_ver, extract_ver := extract_ver,
               gp_flag := gp_flag, method := method, mod_time := mod_time,
               mod_date := mod_date, crc32 := crc32, comp_size := comp_size,
               uncomp_size := uncomp_size, disk_nbr_start := disk_nbr_start,
               int_attrs := int_attrs, ext_attrs := ext_attrs,
               lfh_offset := lfh_offset, name := name, extra := extra,
               comment := comment })

/-- LocalFileHeader from zip-parser/src/lib.rs. -/
structure LocalFileHeader where
  extract_ver : Nat
  gp_flag : Nat
  method : Nat
  mod_time : Nat
  mod_date : Nat
  crc32 : Nat
  comp_size : Nat
  uncomp_size : Nat
  name : List Nat
  extra : List Nat

def LocalFileHeader.SIGNATURE : List Nat := [80, 75, 3, 4]

/-- LocalFileHeader parse. -/
def LocalFileHeader.parse (buf : List Nat) : Except Error (List Nat × LocalFileHeader) := do
  let (buf, expect_sig) ← take buf LocalFileHeader.SIGNATURE.length
  if expect_sig ≠ LocalFileHeader.SIGNATURE then throw .BadLfh
  let (buf, extract_ver) ← read_u16 buf
  let (buf, gp_flag) ← read_u16 buf
  let (buf, method) ← read_u16 buf
  let (buf, mod_time) ← read_u16 buf
  let (buf, mod_date) ← read_u16 buf
  let (buf, crc32) ← read_u32 buf
  let (buf, comp_size) ← read_u32 buf
  let (buf, uncomp_size) ← read_u32 buf
  let (buf, name_len) ← read_u16 buf
  let (buf, extra_len) ← read_u16 buf
  let (buf, name) ← take buf name_len
  let (buf, extra) ← take buf extra_len
  pure (buf, { extract_ver := extract_ver, gp_flag := gp_flag,
               method := method, mod_time := mod_time, mod_date := mod_date,
               crc32 := crc32, comp_size := comp_size, uncomp_size := uncomp_size,
               name := name, extra := extra })

/-- Model of slice get(offset..): Some of the tail when offset is at most
the length, None otherwise. -/
def getFrom (buf : List Nat) (offset : Nat) : Option (List Nat) :=
  if offset ≤ buf.length then some (buf.drop offset) else none

/-- Rust question-mark operator on Result: propagate an error, otherwise
continue with the success value. -/
def qmark {α β : Type} (x : Except Error α) (f : α → Except Error β) : Except Error β :=
  match x with
  | .ok a => f a
  | .error e => .error e

/-- ZipArchive from zip-parser/src/lib.rs. -/
structure ZipArchive where
  buf : List Nat
  eocdr : EocdRecord

/-- ZipArchive parse: locate and decode the EOCD record, then reject
multi-disk layouts. -/
def ZipArchive.parse (buf : List Nat) : Except Error ZipArchive :=
  qmark (EocdRecord.find buf) (fun p =>
    if p.2.disk_nbr ≠ 0 ∨ p.2.cd_start_disk ≠ 0 ∨ p.2.disk_cd_entries ≠ p.2.cd_entries
    then .error .Unsupported
    else .ok { buf := buf, eocdr := p.2 })

/-- ZipEntries iterator state from zip-parser/src/lib.rs. -/
structure ZipEntries where
  buf : List Nat
  count : Nat

/-- ZipArchive entries: slice the buffer at the 32-bit cd_offset of the
plain EOCD record (get(offset..) yields None, hence OffsetOverflow, when
the offset passes the end) and carry the 16-bit cd_entries count. -/
def ZipArchive.entries (a : ZipArchive) : Except Error ZipEntries :=
  match getFrom a.buf a.eocdr.cd_offset with
  | none => .error .OffsetOverflow
  | some buf => .ok { buf := buf, count := a.eocdr.cd_entries }

/-- ZipArchive read: follow the stored lfh_offset, decode the Local File
Header there, and take exactly comp_size bytes after it. -/
def ZipArchive.read (a : ZipArchive) (cfh : CentralFileHeader) :
    Except Error (LocalFileHeader × List Nat) :=
  match getFrom a.buf cfh.lfh_offset with
  | none => .error .OffsetOverflow
  | some buf =>
    match LocalFileHeader.parse buf with
    | .error e => .error e
    | .ok (input, lfh) =>
      match take input cfh.comp_size with
      | .error e => .error e
      | .ok (_, data) => .ok (lfh, data)

/-- ZipEntries next (Iterator impl): checked_sub(1) on the count ends the
iteration at zero; a parse failure is yielded as an item while buf and
count are left untouched (the Rust early return skips both assignments),
so the returned state equals the input state in that branch. -/
def ZipEntries.next (e : ZipEntries) : Option (Except Error CentralFileHeader × ZipEntries) :=
  match e.count with
  | 0 => none
  | n + 1 =>
    match CentralFileHeader.parse e.buf with
    | .ok (input, cfh) => some (.ok cfh, { buf := input, count := n })
    | .error err => some (.error err, e)

/-- Drive a ZipEntries iterator for at most k calls to next, collecting the
yielded items and the final state; stops early when next returns none. -/
def ZipEntries.takeItems : Nat → ZipEntries → List (Except Error CentralFileHeader) × ZipEntries
  | 0, e => ([], e)
  | k + 1, e =>
    match e.next with
    | none => ([], e)
    | some (item, e2) =>
      let p := ZipEntries.takeItems k e2
      (item :: p.1, p.2)

/-- Zip64Archive from zip-parser/src/lib.rs. -/
structure Zip64Archive where
  buf : List Nat
  eocdr : EocdRecord
  zip64_eocdr : Zip64EocdRecord

/-- Zip64Archive parse: locate and decode the EOCD record, reject
multi-disk layouts, find the Zip64 EOCD locator just before the EOCD
record, convert its u64 offset to usize (always fits in the model; the Rust
failure arm maps to Error.TODO), then slice the buffer at that offset with
the panicking indexing operator and decode the Zip64 EOCD record there. -/
def qmarkR {α β : Type} (x : Except Error α) (f : α → RustResult β) : RustResult β :=
  match x with
  | .ok a => f a
  | .error e => .err e

def Zip64Archive.parse (buf : List Nat) : RustResult Zip64Archive :=
  qmarkR (EocdRecord.find buf) (fun p =>
    if p.2.disk_nbr ≠ 0 ∨ p.2.cd_start_disk ≠ 0 ∨ p.2.disk_cd_entries ≠ p.2.cd_entries
    then .err .Unsupported
    else
      qmarkR (Zip64EocdLocator.find buf p.1) (fun zip64_eocdl =>
        if buf.length < zip64_eocdl.offset then .panicked
        else
          qmarkR (Zip64EocdRecord.parse (buf.drop zip64_eocdl.offset)) (fun q =>
            .ok { buf := buf, eocdr := p.2, zip64_eocdr := q.2 })))

/-- Zip64Entries iterator state from zip-parser/src/lib.rs. -/
structure Zip64Entries where
  buf : List Nat
  count : Nat

/-- Zip64Archive entries: slice the buffer at the 64-bit cd_offset of the
Zip64 EOCD record and carry its 64-bit cd_entries count; the plain EOCD
record plays no part. -/
def Zip64Archive.entries (a : Zip64Archive) : Except Error Zip64Entries :=
  match getFrom a.buf a.zip64_eocdr.cd_offset with
  | none => .error .OffsetOverflow
  | some buf => .ok { buf := buf, count := a.zip64_eocdr.cd_entries }

/-- Zip64Archive read: textually the same body as ZipArchive read. -/
def Zip64Archive.read (a : Zip64Archive) (cfh : CentralFileHeader) :
    Except Error (LocalFileHeader × List Nat) :=
  match getFrom a.buf cfh.lfh_offset with
  | none => .error .OffsetOverflow
  | some buf =>
    match LocalFileHeader.parse buf with
    | .error e => .error e
    | .ok (input, lfh) =>
      match take input cfh.comp_size with
      | .error e => .error e
      | .ok (_, data) => .ok (lfh, data)

/-- Zip64Entries next (Iterator impl): same body as ZipEntries next with a
u64 count. -/
def Zip64Entries.next (e : Zip64Entries) : Option (Except Error CentralFileHeader × Zip64Entries) :=
  match e.count with
  | 0 => none
  | n + 1 =>
    match CentralFileHeader.parse e.buf with
    | .ok (input, cfh) => some (.ok cfh, { buf := input, count := n })
    | .error err => some (.error err, e)

/-- Drive a Zip64Entries iterator for at most k calls to next. -/
def Zip64Entries.takeItems : Nat → Zip64Entries → List (Except Error CentralFileHeader) × Zip64Entries
  | 0, e => ([], e)
  | k + 1, e =>
    match e.next with
    | none => ([], e)
    | some (item, e2) =>
      let p := Zip64Entries.takeItems k e2
      (item :: p.1, p.2)

/-- Well-formed run of n consecutive Central File Header records: the list
of decoded headers in on-disk order and the remaining buffer after them,
None when any of the n decodes fails. -/
def cdChain : List Nat → Nat → Option (List CentralFileHeader × List Nat)
  | buf, 0 => some ([], buf)
  | buf, n + 1 =>
    match CentralFileHeader.parse buf with
    | .ok (rest, cfh) =>
      match cdChain rest n with
      | some (hdrs, tail) => some (cfh :: hdrs, tail)
      | none => none
    | .error _ => none

/-- Compression method constants from zip-parser/src/lib.rs. -/
def compress.STORE : Nat := 0

def compress.DEFLATE : Nat := 8

def compress.ZSTD : Nat := 93

/-- Method dispatch of the unzip closure in src/main.rs: STORE is the
identity pass-through, DEFLATE and ZSTD apply the external decompressors
(modelled as parameters returning none on any decoder failure, which the
closure turns into a panic), and any other method code panics (idk).
Returns none exactly on the paths where the closure panics before the size
cap is applied. -/
def rawDecode (deflate zstd : List Nat → Option (List Nat))
    (method : Nat) (buf : List Nat) : Option (List Nat) :=
  if method = compress.STORE then some buf
  else if method = compress.DEFLATE then deflate buf
  else if method = compress.ZSTD then zstd buf
  else none

/-- Bytes buffered by the unzip closure for one entry: the decompressor
output truncated by Read take to at most uncomp_size bytes (src/main.rs,
reader.take(cfh.uncomp_size.into()) then read_to_end).  Modelled from the
spec for the layers missing from the snapshot: the Crc32Checker wrapper of
src/src/util.rs is observational and does not alter the bytes delivered. -/
def pipelineData (deflate zstd : List Nat → Option (List Nat))
    (cfh : CentralFileHeader) (buf : List Nat) : Option (List Nat) :=
  (rawDecode deflate zstd cfh.method buf).map (fun s => s.take cfh.uncomp_size)

/-- Tail of the unzip closure after method dispatch.  Modelled from the
spec: the Crc32Checker of src/src/util.rs (absent from the snapshot)
accumulates a CRC-32 over the capped stream and reports a mismatch once the
stream is consumed, which read_to_end surfaces as an error and the
closure's expect turns into a panic; crcOk abstracts the comparison of the
accumulated value with the stored crc32.  A JSON parse failure afterwards
merely returns from the closure. -/
def crcStage (crcOk : List Nat → Nat → Bool)
    (cfh : CentralFileHeader) (out : List Nat) : RustResult Unit :=
  let data := out.take cfh.uncomp_size
  if crcOk data cfh.crc32 then .ok () else .panicked

/-- Per-entry closure of unzip in src/main.rs: expect on the iterator item
(panic when the entry decode failed), expect on read (panic on failure),
skip entries whose decoded name does not match the CIK regex (nf abstracts
the external charset decoding plus regex), method dispatch (panic on
unsupported method or decoder failure), then the capped CRC-checked read. -/
def processEntry (deflate zstd : List Nat → Option (List Nat))
    (nf : List Nat → Bool) (crcOk : List Nat → Nat → Bool)
    (a : Zip64Archive) (item : Except Error CentralFileHeader) : RustResult Unit :=
  match item with
  | .error _ => .panicked
  | .ok cfh =>
    match Zip64Archive.read a cfh with
    | .error _ => .panicked
    | .ok (_, buf) =>
      if nf cfh.name then
        match rawDecode deflate zstd cfh.method buf with
        | none => .panicked
        | some out => crcStage crcOk cfh out
      else .ok ()

/-- Driver loop of unzip in src/main.rs (for_each over the entries
iterator, modelled sequentially): a panic in the body aborts the whole
loop, leaving the remaining items unprocessed. -/
def forEachEntry (f : Except Error CentralFileHeader → RustResult Unit) :
    List (Except Error CentralFileHeader) → RustResult Unit
  | [] => .ok ()
  | item :: rest =>
    match f item with
    | .ok _ => forEachEntry f rest
    | .err e => .err e
    | .panicked => .panicked

/-! Helper lemmas about the backward signature search. -/

lemma matchAt_le {hay needle : List Nat} {i : Nat} (h : matchAt hay needle i)
    (hne : 0 < needle.length) : i + needle.length ≤ hay.length := by
  have hlen := congrArg List.length h
  rw [List.length_take, List.length_drop] at hlen
  omega

lemma matchAt_drop (buf needle : List Nat) (s i : Nat) :
    matchAt (buf.drop s) needle i ↔ matchAt buf needle (s + i) := by
  unfold matchAt
  rw [List.drop_drop]

lemma rfindFrom_spec (hay needle : List Nat) (m : Nat) :
    ∀ i, rfindFrom hay needle m = some i →
      i ≤ m ∧ matchAt hay needle i ∧ ∀ k, i < k → k ≤ m → ¬ matchAt hay needle k := by
  induction m with
  | zero =>
    intro i h
    by_cases hm : matchAt hay needle 0
    · simp only [rfindFrom, if_pos hm, Option.some.injEq] at h
      subst h
      exact ⟨Nat.le_refl 0, hm, fun k hk1 hk2 _ => absurd (Nat.lt_of_lt_of_le hk1 hk2)
        (Nat.lt_irrefl 0)⟩
    · simp only [rfindFrom, if_neg hm] at h
      exact Option.noConfusion h
  | succ n ih =>
    intro i h
    by_cases hm : matchAt hay needle (n + 1)
    · simp only [rfindFrom, if_pos hm, Option.some.injEq] at h
      subst h
      exact ⟨Nat.le_refl _, hm, fun k hk1 hk2 _ => absurd hk1 (by omega)⟩
    · simp only [rfindFrom, if_neg hm] at h
      obtain ⟨h1, h2, h3⟩ := ih i h
      refine ⟨Nat.le_succ_of_le h1, h2, fun k hk1 hk2 hk3 => ?_⟩
      rcases Nat.lt_or_ge k (n + 1) with hk | hk
      · exact h3 k hk1 (by omega) hk3
      · have hkeq : k = n + 1 := by omega
        rw [hkeq] at hk3
        exact hm hk3

lemma rfindFrom_eq_none (hay needle : List Nat) (m : Nat) :
    rfindFrom hay needle m = none → ∀ k, k ≤ m → ¬ matchAt hay needle k := by
  induction m with
  | zero =>
    intro h k hk
    have hk0 : k = 0 := by omega
    subst hk0
    by_cases hm : matchAt hay needle 0
    · simp only [rfindFrom, if_pos hm] at h
      exact Option.noConfusion h
    · exact hm
  | succ n ih =>
    intro h k hk
    by_cases hm : matchAt hay needle (n + 1)
    · simp only [rfindFrom, if_pos hm] at h
      exact Option.noConfusion h
    · simp only [rfindFrom, if_neg hm] at h
      rcases Nat.lt_or_ge k (n + 1) with hklt | hkge
      · exact ih h k (by omega)
      · have hkeq : k = n + 1 := by omega
        rw [hkeq]
        exact hm

/-- Occurrence of the signature at index k - s of the search window
buf.drop s, derived from an occurrence at index k of buf with s ≤ k. -/
lemma matchAt_window {buf : List Nat} {s k : Nat} (hs : s ≤ k)
    (h : matchAt buf EocdRecord.SIGNATURE k) :
    matchAt (buf.drop s) EocdRecord.SIGNATURE (k - s) ∧ k - s ≤ (buf.drop s).length := by
  constructor
  · rw [matchAt_drop]
    have hks : s + (k - s) = k := by omega
    rw [hks]
    exact h
  · have hle := matchAt_le h (by decide)
    rw [List.length_drop]
    have hsig : EocdRecord.SIGNATURE.length = 4 := by decide
    omega

/-- C3: EocdRecord find_sig_offset searches exactly the window of the last
min(buffer length, 128 KiB) bytes, i.e. indices at or above
max(0, len - 131072) (Nat subtraction realizes the max with 0): it returns
ok j exactly when j is the largest index in that window at which the
4-byte EOCD magic PK 05 06 occurs, and it returns the bad-EOCD-magic error
exactly when the magic occurs nowhere in the window. -/
theorem C3_find_sig_offset_window (buf : List Nat) (j : Nat) :
    (EocdRecord.find_sig_offset buf = .ok j ↔
      (buf.length - 131072 ≤ j ∧ matchAt buf EocdRecord.SIGNATURE j ∧
        ∀ k, buf.length - 131072 ≤ k → matchAt buf EocdRecord.SIGNATURE k → k ≤ j)) ∧
    (EocdRecord.find_sig_offset buf = .error .BadEocdr ↔
      ∀ k, buf.length - 131072 ≤ k → ¬ matchAt buf EocdRecord.SIGNATURE k) := by
  rw [show (131072 : Nat) = EocdRecord.MAX_BACK_OFFSET from by
    norm_num [EocdRecord.MAX_BACK_OFFSET]]
  cases hrf : rfind (buf.drop (buf.length - EocdRecord.MAX_BACK_OFFSET))
      EocdRecord.SIGNATURE with
  | some off =>
    obtain ⟨hoff_le, hoff_match, hoff_max⟩ :=
      rfindFrom_spec (buf.drop (buf.length - EocdRecord.MAX_BACK_OFFSET))
        EocdRecord.SIGNATURE
        (buf.drop (buf.length - EocdRecord.MAX_BACK_OFFSET)).length off hrf
    have hbufmatch : matchAt buf EocdRecord.SIGNATURE
        (buf.length - EocdRecord.MAX_BACK_OFFSET + off) :=
      (matchAt_drop buf EocdRecord.SIGNATURE
        (buf.length - EocdRecord.MAX_BACK_OFFSET) off).mp hoff_match
    have hmax : ∀ k, buf.length - EocdRecord.MAX_BACK_OFFSET ≤ k →
        matchAt buf EocdRecord.SIGNATURE k →
        k ≤ buf.length - EocdRecord.MAX_BACK_OFFSET + off := by
      intro k hk hkm
      obtain ⟨hwin, hwinle⟩ := matchAt_window hk hkm
      by_contra hgt
      exact hoff_max (k - (buf.length - EocdRecord.MAX_BACK_OFFSET)) (by omega) hwinle hwin
    have hfs : EocdRecord.find_sig_offset buf =
        .ok (buf.length - EocdRecord.MAX_BACK_OFFSET + off) := by
      simp only [EocdRecord.find_sig_offset]
      rw [hrf]
      rfl
    constructor
    · constructor
      · intro h
        rw [hfs] at h
        injection h with h
        subst h
        exact ⟨Nat.le_add_right _ off, hbufmatch, hmax⟩
      · rintro ⟨hsj, hjm, hjmax⟩
        have h1 : buf.length - EocdRecord.MAX_BACK_OFFSET + off ≤ j :=
          hjmax _ (Nat.le_add_right _ off) hbufmatch
        have h2 : j ≤ buf.length - EocdRecord.MAX_BACK_OFFSET + off := hmax j hsj hjm
        have heq : buf.length - EocdRecord.MAX_BACK_OFFSET + off = j := by omega
        rw [hfs, heq]
    · constructor
      · intro h
        rw [hfs] at h
        exact Except.noConfusion h
      · intro h
        exact absurd hbufmatch (h _ (Nat.le_add_right _ off))
  | none =>
    have hnone := rfindFrom_eq_none (buf.drop (buf.length - EocdRecord.MAX_BACK_OFFSET))
      EocdRecord.SIGNATURE
      (buf.drop (buf.length - EocdRecord.MAX_BACK_OFFSET)).length hrf
    have hno : ∀ k, buf.length - EocdRecord.MAX_BACK_OFFSET ≤ k →
        ¬ matchAt buf EocdRecord.SIGNATURE k := by
      intro k hk hkm
      obtain ⟨hwin, hwinle⟩ := matchAt_window hk hkm
      exact hnone (k - (buf.length - EocdRecord.MAX_BACK_OFFSET)) hwinle hwin
    have hfs : EocdRecord.find_sig_offset buf = .error .BadEocdr := by
      simp only [EocdRecord.find_sig_offset]
      rw [hrf]
      rfl
    constructor
    · constructor
      · intro h
        rw [hfs] at h
        exact Except.noConfusion h
      · rintro ⟨hsj, hjm, _⟩
        exact absurd hjm (hno j hsj)
    · exact ⟨fun _ => hno, fun _ => hfs⟩

/-! Helper lemmas about the entry iterators. -/

lemma getFrom_eq_some {buf : List Nat} {offset : Nat} {out : List Nat} :
    getFrom buf offset = some out ↔ offset ≤ buf.length ∧ out = buf.drop offset := by
  unfold getFrom
  by_cases h : offset ≤ buf.length
  · rw [if_pos h]
    simp only [Option.some.injEq]
    constructor
    · intro h2
      exact ⟨h, h2.symm⟩
    · intro h2
      exact h2.2.symm
  · rw [if_neg h]
    constructor
    · intro h2
      exact Option.noConfusion h2
    · intro h2
      exact absurd h2.1 h

lemma zipEntriesNextError {e : ZipEntries} {err : Error} (h1 : e.count ≠ 0)
    (h2 : CentralFileHeader.parse e.buf = .error err) :
    e.next = some (.error err, e) := by
  obtain ⟨b, c⟩ := e
  cases c with
  | zero => exact absurd rfl h1
  | succ n =>
    show ZipEntries.next { buf := b, count := n + 1 } = _
    simp only [ZipEntries.next]
    rw [show CentralFileHeader.parse b = .error err from h2]

lemma zip64EntriesNextError {e : Zip64Entries} {err : Error} (h1 : e.count ≠ 0)
    (h2 : CentralFileHeader.parse e.buf = .error err) :
    e.next = some (.error err, e) := by
  obtain ⟨b, c⟩ := e
  cases c with
  | zero => exact absurd rfl h1
  | succ n =>
    show Zip64Entries.next { buf := b, count := n + 1 } = _
    simp only [Zip64Entries.next]
    rw [show CentralFileHeader.parse b = .error err from h2]

lemma zipEntriesTakeItemsError {e : ZipEntries} {err : Error} (h1 : e.count ≠ 0)
    (h2 : CentralFileHeader.parse e.buf = .error err) :
    ∀ k, e.takeItems k = (List.replicate k (Except.error err), e) := by
  intro k
  induction k with
  | zero => rfl
  | succ m ih =>
    simp only [ZipEntries.takeItems, zipEntriesNextError h1 h2, ih, List.replicate]

lemma zip64EntriesTakeItemsError {e : Zip64Entries} {err : Error} (h1 : e.count ≠ 0)
    (h2 : CentralFileHeader.parse e.buf = .error err) :
    ∀ k, e.takeItems k = (List.replicate k (Except.error err), e) := by
  intro k
  induction k with
  | zero => rfl
  | succ m ih =>
    simp only [Zip64Entries.takeItems, zip64EntriesNextError h1 h2, ih, List.replicate]

lemma cdChain_takeItems :
    ∀ (n : Nat) (buf : List Nat) (hdrs : List CentralFileHeader) (tail : List Nat),
      cdChain buf n = some (hdrs, tail) →
      ZipEntries.takeItems n { buf := buf, count := n } =
        (hdrs.map Except.ok, { buf := tail, count := 0 }) ∧
      hdrs.length = n := by
  intro n
  induction n with
  | zero =>
    intro buf hdrs tail h
    simp only [cdChain, Option.some.injEq, Prod.mk.injEq] at h
    obtain ⟨h1, h2⟩ := h
    subst h1
    subst h2
    exact ⟨rfl, rfl⟩
  | succ m ih =>
    intro buf hdrs tail h
    cases hp : CentralFileHeader.parse buf with
    | error e =>
      simp only [cdChain, hp] at h
      exact Option.noConfusion h
    | ok p =>
      obtain ⟨rest, cfh⟩ := p
      cases hc : cdChain rest m with
      | none =>
        simp only [cdChain, hp, hc] at h
        exact Option.noConfusion h
      | some q =>
        obtain ⟨hdrs2, tail2⟩ := q
        simp only [cdChain, hp, hc, Option.some.injEq, Prod.mk.injEq] at h
        obtain ⟨h1, h2⟩ := h
        obtain ⟨ih1, ih2⟩ := ih rest hdrs2 tail2 hc
        subst h1
        subst h2
        have hnext : ZipEntries.next { buf := buf, count := m + 1 } =
            some (.ok cfh, { buf := rest, count := m }) := by
          simp only [ZipEntries.next, hp]
        constructor
        · simp only [ZipEntries.takeItems, hnext, ih1, List.map]
        · simp only [List.length_cons, ih2]

lemma cdChain_takeItems64 :
    ∀ (n : Nat) (buf : List Nat) (hdrs : List CentralFileHeader) (tail : List Nat),
      cdChain buf n = some (hdrs, tail) →
      Zip64Entries.takeItems n { buf := buf, count := n } =
        (hdrs.map Except.ok, { buf := tail, count := 0 }) ∧
      hdrs.length = n := by
  intro n
  induction n with
  | zero =>
    intro buf hdrs tail h
    simp only [cdChain, Option.some.injEq, Prod.mk.injEq] at h
    obtain ⟨h1, h2⟩ := h
    subst h1
    subst h2
    exact ⟨rfl, rfl⟩
  | succ m ih =>
    intro buf hdrs tail h
    cases hp : CentralFileHeader.parse buf with
    | error e =>
      simp only [cdChain, hp] at h
      exact Option.noConfusion h
    | ok p =>
      obtain ⟨rest, cfh⟩ := p
      cases hc : cdChain rest m with
      | none =>
        simp only [cdChain, hp, hc] at h
        exact Option.noConfusion h
      | some q =>
        obtain ⟨hdrs2, tail2⟩ := q
        simp only [cdChain, hp, hc, Option.some.injEq, Prod.mk.injEq] at h
        obtain ⟨h1, h2⟩ := h
        obtain ⟨ih1, ih2⟩ := ih rest hdrs2 tail2 hc
        subst h1
        subst h2
        have hnext : Zip64Entries.next { buf := buf, count := m + 1 } =
            some (.ok cfh, { buf := rest, count := m }) := by
          simp only [Zip64Entries.next, hp]
        constructor
        · simp only [Zip64Entries.takeItems, hnext, ih1, List.map]
        · simp only [List.length_cons, ih2]

/-- C4: for a successfully parsed non-Zip64 archive whose central directory
region holds cd_entries well-formed Central File Header records at
cd_offset, the iterator produced by entries yields exactly that many items,
each Ok of the decoded header in on-disk order, after which next returns
None (and, the final count being 0, keeps returning None). -/
theorem C4_entries_yield_exactly_count (buf : List Nat) (a : ZipArchive) (e : ZipEntries)
    (hdrs : List CentralFileHeader) (tail : List Nat)
    (_hp : ZipArchive.parse buf = .ok a)
    (he : a.entries = .ok e)
    (hc : cdChain (a.buf.drop a.eocdr.cd_offset) a.eocdr.cd_entries = some (hdrs, tail)) :
    hdrs.length = a.eocdr.cd_entries ∧
    e.takeItems a.eocdr.cd_entries = (hdrs.map Except.ok, { buf := tail, count := 0 }) ∧
    ZipEntries.next { buf := tail, count := 0 } = none := by
  cases hg : getFrom a.buf a.eocdr.cd_offset with
  | none =>
    simp only [ZipArchive.entries, hg] at he
    exact Except.noConfusion he
  | some b =>
    simp only [ZipArchive.entries, hg, Except.ok.injEq] at he
    obtain ⟨_, hb⟩ := getFrom_eq_some.mp hg
    subst hb
    obtain ⟨ht, hl⟩ := cdChain_takeItems a.eocdr.cd_entries _ hdrs tail hc
    subst he
    exact ⟨hl, ht, rfl⟩

/-- C5 counterexample: a ZipEntries iterator with a remaining count of 2
over an empty buffer yields the Eof decode failure with its state left
unchanged, and continues to produce items after that first failure (three
calls yield three error items), so the failure is not the final item and
the iteration does not end there. -/
theorem C5_counterexample_error_not_final :
    ZipEntries.next { buf := [], count := 2 } =
      some (Except.error Error.Eof, { buf := [], count := 2 }) ∧
    (ZipEntries.takeItems 3 { buf := [], count := 2 }).1 =
      [Except.error Error.Eof, Except.error Error.Eof, Except.error Error.Eof] := by
  exact ⟨rfl, rfl⟩

/-- C5 amended: when a step's Central File Header decode fails, both entry
iterators yield that failure as an Err item and leave their state (buffer
and count) unchanged, so every subsequent call yields the same Err again:
driving the iterator any number of steps produces only copies of that
error and never advances the state.  The iterator does not end at the
failure. -/
theorem C5_amended_decode_failure_repeats (e : ZipEntries) (e64 : Zip64Entries)
    (err err64 : Error) (k : Nat)
    (h1 : e.count ≠ 0) (h2 : CentralFileHeader.parse e.buf = .error err)
    (h3 : e64.count ≠ 0) (h4 : CentralFileHeader.parse e64.buf = .error err64) :
    e.takeItems k = (List.replicate k (Except.error err), e) ∧
    e64.takeItems k = (List.replicate k (Except.error err64), e64) :=
  ⟨zipEntriesTakeItemsError h1 h2 k,
   zip64EntriesTakeItemsError h3 h4 k⟩

/-- C10: when CentralFileHeader parse fails on the current buffer of a
ZipEntries or Zip64Entries iterator, next yields that error with the state
component exactly equal to the pre-call state (buffer and count untouched),
and therefore the immediately following call to next on the returned state
yields the very same error again. -/
theorem C10_error_leaves_state_unchanged (e : ZipEntries) (e64 : Zip64Entries)
    (err err64 : Error)
    (h1 : e.count ≠ 0) (h2 : CentralFileHeader.parse e.buf = .error err)
    (h3 : e64.count ≠ 0) (h4 : CentralFileHeader.parse e64.buf = .error err64) :
    (e.next = some (.error err, e) ∧
      Option.bind e.next (fun p => p.2.next) = some (.error err, e)) ∧
    (e64.next = some (.error err64, e64) ∧
      Option.bind e64.next (fun p => p.2.next) = some (.error err64, e64)) := by
  have hn := zipEntriesNextError h1 h2
  have hn64 := zip64EntriesNextError h3 h4
  refine ⟨⟨hn, ?_⟩, ⟨hn64, ?_⟩⟩
  · rw [hn, Option.some_bind]
    exact hn
  · rw [hn64, Option.some_bind]
    exact hn64

/-- C6: the iterator produced by Zip64Archive entries is driven entirely by
the 64-bit cd_entries count and 64-bit cd_offset of the Zip64 EOCD record:
its count equals that 64-bit count, iterating yields exactly that many
decoded headers when the central directory region is well-formed for it,
and replacing the plain EOCD record (with its 16/32-bit fields) by any
other record leaves the result of entries unchanged. -/
theorem C6_zip64_entries_driven_by_64bit_fields (a : Zip64Archive) (e : Zip64Entries)
    (hdrs : List CentralFileHeader) (tail : List Nat)
    (he : a.entries = .ok e)
    (hc : cdChain (a.buf.drop a.zip64_eocdr.cd_offset) a.zip64_eocdr.cd_entries =
      some (hdrs, tail)) :
    e.count = a.zip64_eocdr.cd_entries ∧
    hdrs.length = a.zip64_eocdr.cd_entries ∧
    e.takeItems a.zip64_eocdr.cd_entries = (hdrs.map Except.ok, { buf := tail, count := 0 }) ∧
    ∀ r : EocdRecord,
      Zip64Archive.entries { buf := a.buf, eocdr := r, zip64_eocdr := a.zip64_eocdr } =
        .ok e := by
  cases hg : getFrom a.buf a.zip64_eocdr.cd_offset with
  | none =>
    simp only [Zip64Archive.entries, hg] at he
    exact Except.noConfusion he
  | some b =>
    simp only [Zip64Archive.entries, hg, Except.ok.injEq] at he
    obtain ⟨_, hb⟩ := getFrom_eq_some.mp hg
    subst hb
    obtain ⟨ht, hl⟩ := cdChain_takeItems64 a.zip64_eocdr.cd_entries _ hdrs tail hc
    subst he
    refine ⟨rfl, hl, ht, ?_⟩
    intro r
    simp only [Zip64Archive.entries, hg]

/-- C7: both read operations locate the Local File Header at the stored
32-bit lfh_offset of the Central File Header, failing with OffsetOverflow
when that offset lies beyond the addressable buffer; when the Local File
Header decodes at that offset, they return it together with the slice of
exactly comp_size bytes immediately following it, and fail with the
buffer-exhaustion error Eof when fewer than comp_size bytes remain. -/
theorem C7_read_returns_comp_size_slice (a : ZipArchive) (a64 : Zip64Archive)
    (cfh : CentralFileHeader) :
    (a.buf.length < cfh.lfh_offset → a.read cfh = .error .OffsetOverflow) ∧
    (∀ rest lfh, cfh.lfh_offset ≤ a.buf.length →
      LocalFileHeader.parse (a.buf.drop cfh.lfh_offset) = .ok (rest, lfh) →
      (cfh.comp_size ≤ rest.length →
        a.read cfh = .ok (lfh, rest.take cfh.comp_size) ∧
        (rest.take cfh.comp_size).length = cfh.comp_size) ∧
      (rest.length < cfh.comp_size → a.read cfh = .error .Eof)) ∧
    (a64.buf.length < cfh.lfh_offset → a64.read cfh = .error .OffsetOverflow) ∧
    (∀ rest lfh, cfh.lfh_offset ≤ a64.buf.length →
      LocalFileHeader.parse (a64.buf.drop cfh.lfh_offset) = .ok (rest, lfh) →
      (cfh.comp_size ≤ rest.length →
        a64.read cfh = .ok (lfh, rest.take cfh.comp_size) ∧
        (rest.take cfh.comp_size).length = cfh.comp_size) ∧
      (rest.length < cfh.comp_size → a64.read cfh = .error .Eof)) := by
  refine ⟨?_, ?_, ?_, ?_⟩
  · intro hlt
    have hg : getFrom a.buf cfh.lfh_offset = none := by
      unfold getFrom
      rw [if_neg (by omega)]
    simp only [ZipArchive.read, hg]
  · intro rest lfh hle hparse
    have hg : getFrom a.buf cfh.lfh_offset = some (a.buf.drop cfh.lfh_offset) := by
      unfold getFrom
      rw [if_pos hle]
    constructor
    · intro hcs
      have ht : take rest cfh.comp_size =
          .ok (rest.drop cfh.comp_size, rest.take cfh.comp_size) := by
        unfold take
        rw [if_pos hcs]
      constructor
      · simp only [ZipArchive.read, hg, hparse, ht]
      · rw [List.length_take]
        omega
    · intro hgt
      have ht : take rest cfh.comp_size = .error .Eof := by
        unfold take
        rw [if_neg (by omega)]
      simp only [ZipArchive.read, hg, hparse, ht]
  · intro hlt
    have hg : getFrom a64.buf cfh.lfh_offset = none := by
      unfold getFrom
      rw [if_neg (by omega)]
    simp only [Zip64Archive.read, hg]
  · intro rest lfh hle hparse
    have hg : getFrom a64.buf cfh.lfh_offset = some (a64.buf.drop cfh.lfh_offset) := by
      unfold getFrom
      rw [if_pos hle]
    constructor
    · intro hcs
      have ht : take rest cfh.comp_size =
          .ok (rest.drop cfh.comp_size, rest.take cfh.comp_size) := by
        unfold take
        rw [if_pos hcs]
      constructor
      · simp only [Zip64Archive.read, hg, hparse, ht]
      · rw [List.length_take]
        omega
    · intro hgt
      have ht : take rest cfh.comp_size = .error .Eof := by
        unfold take
        rw [if_neg (by omega)]
      simp only [Zip64Archive.read, hg, hparse, ht]

/-- C8: whenever the located EOCD record has a nonzero disk number, a
nonzero central-directory start disk, or a per-disk entry count different
from the total entry count, both ZipArchive parse and Zip64Archive parse
stop right there with the Unsupported error, before touching any further
directory structure. -/
theorem C8_multidisk_rejected (buf : List Nat) (off : Nat) (r : EocdRecord)
    (hf : EocdRecord.find buf = .ok (off, r))
    (hbad : r.disk_nbr ≠ 0 ∨ r.cd_start_disk ≠ 0 ∨ r.disk_cd_entries ≠ r.cd_entries) :
    ZipArchive.parse buf = .error .Unsupported ∧
    Zip64Archive.parse buf = .err .Unsupported := by
  constructor
  · have step1 : ZipArchive.parse buf = qmark (EocdRecord.find buf) (fun p =>
        if p.2.disk_nbr ≠ 0 ∨ p.2.cd_start_disk ≠ 0 ∨ p.2.disk_cd_entries ≠ p.2.cd_entries
        then .error .Unsupported
        else .ok { buf := buf, eocdr := p.2 }) := rfl
    rw [step1, hf]
    rw [qmark]
    rw [if_pos hbad]
  · have step2 : Zip64Archive.parse buf = qmarkR (EocdRecord.find buf) (fun p =>
        if p.2.disk_nbr ≠ 0 ∨ p.2.cd_start_disk ≠ 0 ∨ p.2.disk_cd_entries ≠ p.2.cd_entries
        then .err .Unsupported
        else
          qmarkR (Zip64EocdLocator.find buf p.1) (fun zip64_eocdl =>
            if buf.length < zip64_eocdl.offset then .panicked
            else
              qmarkR (Zip64EocdRecord.parse (buf.drop zip64_eocdl.offset)) (fun q =>
                .ok { buf := buf, eocdr := p.2, zip64_eocdr := q.2 }))) := rfl
    rw [step2, hf]
    rw [qmarkR]
    rw [if_pos hbad]

/-- Concrete archive tail for C9: a Zip64 EOCD locator whose stored 64-bit
offset is 9999, immediately followed by a well-formed single-disk EOCD
record; the whole buffer is 42 bytes long, so offset 9999 lies far beyond
its end. -/
def bufC9 : List Nat :=
  [80, 75, 6, 7, 0, 0, 0, 0, 15, 39, 0, 0, 0, 0, 0, 0, 1, 0, 0, 0] ++
    ([80, 75, 5, 6] ++ List.replicate 18 0)

/-- C9: on a buffer whose Zip64 EOCD locator stores an offset beyond the
end of the buffer, Zip64Archive parse does not return the typed
OffsetOverflow error the specification requires: the indexing expression
buf[offset..] panics instead (and the conversion failure arm of the same
offset maps to the placeholder error TODO, not OffsetOverflow).  The claim
describes the intended behaviour; the code panics. -/
theorem C9_locator_offset_beyond_end_panics :
    Zip64Archive.parse bufC9 = RustResult.panicked ∧
    Zip64Archive.parse bufC9 ≠ RustResult.err Error.OffsetOverflow := by
  constructor
  · rfl
  · intro h
    rw [show Zip64Archive.parse bufC9 = RustResult.panicked from rfl] at h
    exact RustResult.noConfusion h

/-- C1: the per-entry driver of src/main.rs does not isolate a failing
entry: as soon as the entries iterator yields an Err item, the closure's
expect panics and the whole for_each aborts, whatever the remaining sibling
entries are, instead of recording a typed per-entry error and continuing.
The claim describes the intended behaviour; the code aborts. -/
theorem C1_driver_panics_on_entry_failure
    (deflate zstd : List Nat → Option (List Nat)) (nf : List Nat → Bool)
    (crcOk : List Nat → Nat → Bool) (a : Zip64Archive) (err : Error)
    (rest : List (Except Error CentralFileHeader)) :
    forEachEntry (processEntry deflate zstd nf crcOk a) (Except.error err :: rest) =
      RustResult.panicked := rfl

/-- C2: whatever byte stream the selected decompressor would produce, the
bytes the pipeline buffers for an entry are exactly the first uncomp_size
bytes of that stream: at most uncomp_size bytes long, and no byte is ever
delivered at or beyond index uncomp_size. -/
theorem C2_pipeline_caps_at_uncomp_size (deflate zstd : List Nat → Option (List Nat))
    (cfh : CentralFileHeader) (buf s data : List Nat)
    (hraw : rawDecode deflate zstd cfh.method buf = some s)
    (hdata : pipelineData deflate zstd cfh buf = some data) :
    data = s.take cfh.uncomp_size ∧ data.length ≤ cfh.uncomp_size ∧
    ∀ i, cfh.uncomp_size ≤ i → data.get? i = none := by
  simp only [pipelineData, hraw, Option.map_some'] at hdata
  injection hdata with hdata
  subst hdata
  refine ⟨rfl, ?_, ?_⟩
  · rw [List.length_take]
    omega
  · intro i hi
    rw [List.get?_eq_none]
    rw [List.length_take]
    omega

/-! Concrete inputs and witnesses. -/

/-- Four-byte buffer that is exactly the EOCD magic. -/
def bufW3 : List Nat := [80, 75, 5, 6]

/-- Witness for C3: on the four-byte buffer consisting of the EOCD magic,
find_sig_offset returns offset 0, which therefore lies in the search window
and carries the magic. -/
theorem C3_witness : bufW3.length - 131072 ≤ 0 ∧ matchAt bufW3 EocdRecord.SIGNATURE 0 :=
  ⟨((C3_find_sig_offset_window bufW3 0).1.mp rfl).1,
   ((C3_find_sig_offset_window bufW3 0).1.mp rfl).2.1⟩

/-- Central File Header record with method DEFLATE and uncomp_size 2. -/
def cfhW2 : CentralFileHeader :=
  { made_by_ver := 0, extract_ver := 0, gp_flag := 0, method := 8, mod_time := 0,
    mod_date := 0, crc32 := 0, comp_size := 0, uncomp_size := 2, disk_nbr_start := 0,
    int_attrs := 0, ext_attrs := 0, lfh_offset := 0, name := [], extra := [], comment := [] }

/-- Witness for C2: a decompressor that would produce five bytes is capped
at the declared uncomp_size of 2. -/
theorem C2_witness :
    pipelineData (fun _ => some [1, 2, 3, 4, 5]) (fun _ => none) cfhW2 [] = some [1, 2] ∧
    ([1, 2] : List Nat).length ≤ 2 :=
  ⟨rfl, (C2_pipeline_caps_at_uncomp_size (fun _ => some [1, 2, 3, 4, 5]) (fun _ => none)
      cfhW2 [] [1, 2, 3, 4, 5] [1, 2] rfl rfl).2.1⟩

/-- Bytes of one Central File Header record with every numeric field 0 and
empty name, extra and comment. -/
def cfh46 : List Nat := [80, 75, 1, 2] ++ List.replicate 42 0

/-- Bytes of an EOCD record declaring one entry and cd_offset 0. -/
def eocdC4bytes : List Nat :=
  [80, 75, 5, 6, 0, 0, 0, 0, 1, 0, 1, 0, 46, 0, 0, 0, 0, 0, 0, 0, 0, 0]

/-- Single-entry archive: one Central File Header followed by the EOCD
record. -/
def bufC4 : List Nat := cfh46 ++ eocdC4bytes

def eocdC4 : EocdRecord :=
  { disk_nbr := 0, cd_start_disk := 0, disk_cd_entries := 1, cd_entries := 1,
    cd_size := 46, cd_offset := 0, comment := [] }

def aC4 : ZipArchive := { buf := bufC4, eocdr := eocdC4 }

/-- Central File Header record with every field zero and empty byte
ranges. -/
def cfhZero : CentralFileHeader :=
  { made_by_ver := 0, extract_ver := 0, gp_flag := 0, method := 0, mod_time := 0,
    mod_date := 0, crc32 := 0, comp_size := 0, uncomp_size := 0, disk_nbr_start := 0,
    int_attrs := 0, ext_attrs := 0, lfh_offset := 0, name := [], extra := [], comment := [] }

/-- Witness for C4: on the concrete single-entry archive, the iterator
yields exactly one Ok item and then None. -/
theorem C4_witness :
    ([cfhZero].length = 1) ∧
    ZipEntries.takeItems 1 { buf := bufC4, count := 1 } =
      ([Except.ok cfhZero], { buf := eocdC4bytes, count := 0 }) ∧
    ZipEntries.next { buf := eocdC4bytes, count := 0 } = none :=
  C4_entries_yield_exactly_count bufC4 aC4 { buf := bufC4, count := 1 } [cfhZero]
    eocdC4bytes rfl rfl rfl

/-- Witness for C5 amended: iterators whose buffer is empty but whose count
is nonzero repeat the Eof failure at every step without advancing. -/
theorem C5_witness :
    ZipEntries.takeItems 2 { buf := [], count := 2 } =
      (List.replicate 2 (Except.error Error.Eof), { buf := [], count := 2 }) ∧
    Zip64Entries.takeItems 2 { buf := [], count := 3 } =
      (List.replicate 2 (Except.error Error.Eof), { buf := [], count := 3 }) :=
  C5_amended_decode_failure_repeats { buf := [], count := 2 } { buf := [], count := 3 }
    Error.Eof Error.Eof 2 (by decide) rfl (by decide) rfl

/-- Iterator whose next Central File Header has a bad magic number. -/
def eC10 : ZipEntries := { buf := [80, 75, 9, 9, 0, 0], count := 1 }

/-- Witness for C10: the failing iterators return their own state unchanged
alongside the error, and a second call yields the same error. -/
theorem C10_witness :
    (ZipEntries.next eC10 = some (.error Error.BadCfh, eC10) ∧
      Option.bind (ZipEntries.next eC10) (fun p => p.2.next) =
        some (.error Error.BadCfh, eC10)) ∧
    (Zip64Entries.next { buf := [], count := 5 } =
        some (.error Error.Eof, { buf := [], count := 5 }) ∧
      Option.bind (Zip64Entries.next { buf := [], count := 5 }) (fun p => p.2.next) =
        some (.error Error.Eof, { buf := [], count := 5 })) :=
  C10_error_leaves_state_unchanged eC10 { buf := [], count := 5 } Error.BadCfh Error.Eof
    (by decide) rfl (by decide) rfl

def z64C6 : Zip64EocdRecord :=
  { version_by := 0, version_needed := 0, disk_nbr := 0, cd_start_disk := 0,
    disk_cd_entries := 1, cd_entries := 1, cd_size := 46, cd_offset := 0, extra_data := [] }

def a64C6 : Zip64Archive := { buf := cfh46, eocdr := eocdC4, zip64_eocdr := z64C6 }

/-- Witness for C6: on a concrete Zip64 archive the iterator count and the
number of yielded items equal the Zip64 EOCD record's 64-bit entry count. -/
theorem C6_witness :
    ({ buf := cfh46, count := 1 } : Zip64Entries).count = 1 ∧
    [cfhZero].length = 1 ∧
    Zip64Entries.takeItems 1 { buf := cfh46, count := 1 } =
      ([Except.ok cfhZero], { buf := [], count := 0 }) := by
  have h := C6_zip64_entries_driven_by_64bit_fields a64C6 { buf := cfh46, count := 1 }
    [cfhZero] [] rfl rfl
  exact ⟨h.1, h.2.1, h.2.2.1⟩

/-- Bytes of one Local File Header with every numeric field 0 and empty
name and extra. -/
def lfh30 : List Nat := [80, 75, 3, 4] ++ List.replicate 26 0

/-- Buffer holding the Local File Header followed by two payload bytes. -/
def bufC7 : List Nat := lfh30 ++ [7, 8]

def lfhZero : LocalFileHeader :=
  { extract_ver := 0, gp_flag := 0, method := 0, mod_time := 0, mod_date := 0,
    crc32 := 0, comp_size := 0, uncomp_size := 0, name := [], extra := [] }

/-- Central File Header pointing at offset 0 with comp_size 2. -/
def cfhC7 : CentralFileHeader :=
  { made_by_ver := 0, extract_ver := 0, gp_flag := 0, method := 0, mod_time := 0,
    mod_date := 0, crc32 := 0, comp_size := 2, uncomp_size := 0, disk_nbr_start := 0,
    int_attrs := 0, ext_attrs := 0, lfh_offset := 0, name := [], extra := [], comment := [] }

def aC7 : ZipArchive := { buf := bufC7, eocdr := eocdC4 }

def a64C7 : Zip64Archive := { buf := bufC7, eocdr := eocdC4, zip64_eocdr := z64C6 }

/-- Witness for C7: reading the concrete entry returns the decoded Local
File Header and exactly the two payload bytes following it, on both
archive flavours. -/
theorem C7_witness :
    ZipArchive.read aC7 cfhC7 = .ok (lfhZero, [7, 8]) ∧
    Zip64Archive.read a64C7 cfhC7 = .ok (lfhZero, [7, 8]) := by
  have h := C7_read_returns_comp_size_slice aC7 a64C7 cfhC7
  have h1 := (h.2.1 [7, 8] lfhZero (by decide) rfl).1 (by decide)
  have h2 := (h.2.2.2 [7, 8] lfhZero (by decide) rfl).1 (by decide)
  exact ⟨h1.1, h2.1⟩

/-- EOCD record bytes declaring disk number 1 (a multi-disk layout). -/
def eocd22bad : List Nat :=
  [80, 75, 5, 6, 1, 0, 0, 0, 0, 0, 0, 0, 0, 0, 0, 0, 0, 0, 0, 0, 0, 0]

def rC8 : EocdRecord :=
  { disk_nbr := 1, cd_start_disk := 0, disk_cd_entries := 0, cd_entries := 0,
    cd_size := 0, cd_offset := 0, comment := [] }

/-- Witness for C8: a concrete buffer whose EOCD record stores disk number
1 is rejected as Unsupported by both parse entry points. -/
theorem C8_witness :
    ZipArchive.parse eocd22bad = .error .Unsupported ∧
    Zip64Archive.parse eocd22bad = .err .Unsupported :=
  C8_multidisk_rejected eocd22bad 0 rC8 rfl (Or.inl (by decide))

end SecZip
